import Mathlib

/-!
Shallow embedding of the trading-ledger event-pipeline consumer
(C++ sources under src/cpp) and proofs about it.

Modelled components:
* Record framer: EventParser.cpp (readUint32LE, readUint64LE, calculateCRC32,
  parseFileHeader, parse) over byte lists.
* Log reader: EventLogReader.cpp (readNext, remapIfGrown) as explicit state
  passing; memory-mapped bytes become a function from addresses to byte values,
  and syscall outcomes (fstat, munmap, mmap) are explicit parameters.
* SPSC ring buffer: RingBuffer.h (try_push, try_pop) as a sequential state
  machine, related to an abstract FIFO queue of capacity SIZE - 1.
* Latency histogram: LatencyHistogram.cpp (record, percentile, min, max, mean),
  with the std::map of samples embedded as a strictly sorted association list.
* Driver exit status: event_processor_main.cpp main.

Machine integers become Nat with explicit masks and moduli where the code
wraps; bytes (uint8_t values) are Nat values below 256 wherever they originate
from typed C++ data.
-/

namespace TradingLedger

/-! ## Record framer (EventParser.cpp, Event.h) -/

/-- Event record (Event.h). Field values are the machine-integer contents:
sequence_num and timestamp_ns are uint64, event_type is the raw byte stored in
the record (the C++ cast to the EventType enum does not validate), payload is
the byte string, crc32 the stored checksum. -/
structure Event where
  sequence_num : Nat
  timestamp_ns : Nat
  event_type : Nat
  payload : List Nat
  crc32 : Nat
deriving DecidableEq, Repr

/-- Exception class thrown by the framer: ParseException (insufficient data or
invalid header) or CorruptedEventException (CRC mismatch). The carried message
strings are not modelled. -/
inductive ParseError where
  | parseException
  | corruptedEvent
deriving DecidableEq, Repr

/-- Byte i of a byte buffer handed to the framer as a pointer. In the C++ the
caller guarantees the length; out-of-range reads default to 0 here. -/
def byteAt (data : List Nat) (i : Nat) : Nat :=
  data.getD i 0

/-- EventParser::readUint32LE: little-endian 32-bit read, an or of the four
bytes shifted into their lanes. -/
def readUint32LE (data : List Nat) : Nat :=
  byteAt data 0 ||| (byteAt data 1 <<< 8) ||| (byteAt data 2 <<< 16) |||
    (byteAt data 3 <<< 24)

/-- EventParser::readUint64LE: little-endian 64-bit read. -/
def readUint64LE (data : List Nat) : Nat :=
  byteAt data 0 ||| (byteAt data 1 <<< 8) ||| (byteAt data 2 <<< 16) |||
    (byteAt data 3 <<< 24) ||| (byteAt data 4 <<< 32) ||| (byteAt data 5 <<< 40) |||
    (byteAt data 6 <<< 48) ||| (byteAt data 7 <<< 56)

/-- One bit step of the reflected CRC32: shift right, conditionally xor the
reversed polynomial 0xEDB88320. -/
def crc32UpdateBit (c : Nat) : Nat :=
  if c &&& 1 = 1 then (c >>> 1) ^^^ 0xEDB88320 else c >>> 1

/-- One byte step of CRC32: xor the byte (an unsigned char, hence masked to
8 bits) into the low lane, then run eight bit steps. -/
def crc32UpdateByte (c b : Nat) : Nat :=
  crc32UpdateBit^[8] (c ^^^ (b &&& 0xFF))

/-- EventParser::calculateCRC32: the zlib crc32 over the buffer — reflected
polynomial, initial value 0xFFFFFFFF, final xor 0xFFFFFFFF. -/
def calculateCRC32 (data : List Nat) : Nat :=
  (data.foldl crc32UpdateByte 0xFFFFFFFF) ^^^ 0xFFFFFFFF

/-- File header (Event.h FileHeader): magic, version, reserved. -/
structure FileHeader where
  magic : Nat
  version : Nat
  reserved : Nat
deriving DecidableEq, Repr

/-- FileHeader::isValid: checks magic and version only; the reserved field is
not inspected. -/
def FileHeader.isValid (h : FileHeader) : Bool :=
  h.magic == 0x54524144 && h.version == 1

/-- EventParser::parseFileHeader: needs 16 bytes, reads the three little-endian
fields, throws ParseException when isValid fails. -/
def parseFileHeader (data : List Nat) : Except ParseError FileHeader :=
  if data.length < 16 then .error .parseException
  else
    let header : FileHeader :=
      ⟨readUint32LE data, readUint32LE (data.drop 4), readUint64LE (data.drop 8)⟩
    if header.isValid then .ok header else .error .parseException

/-- EventParser::parse: needs 28 bytes, reads the fixed header, requires the
declared total length 28 + payload_length, copies the payload, reads the stored
CRC, recomputes the CRC over the first 24 + payload_length bytes and compares.
Check order and exception classes follow the source. -/
def parse (data : List Nat) : Except ParseError Event :=
  if data.length < 28 then .error .parseException
  else
    let payload_length := readUint32LE (data.drop 20)
    if data.length < 28 + payload_length then .error .parseException
    else
      let payload := (data.drop 24).take payload_length
      let stored_crc := readUint32LE (data.drop (24 + payload_length))
      let calculated_crc := calculateCRC32 (data.take (24 + payload_length))
      if calculated_crc = stored_crc then
        .ok ⟨readUint64LE data, readUint64LE (data.drop 8), byteAt data 16,
             payload, stored_crc⟩
      else .error .corruptedEvent

/-! ## Serialization (spec section 3 record layout)

The writer is a separate process; its output format is the contract stated in
the spec and restated by the round-trip property: little-endian sequence_num,
timestamp_ns, one event_type byte, three zero reserved bytes, payload_length,
payload, then the CRC32 of the preceding bytes. -/

/-- The w little-endian bytes of n. -/
def serializeNat (w n : Nat) : List Nat :=
  (List.range w).map (fun i => (n >>> (8 * i)) &&& 0xFF)

/-- The serialized record body before the CRC: the 24-byte fixed header
followed by the payload. -/
def serializeBody (e : Event) : List Nat :=
  serializeNat 8 e.sequence_num ++ serializeNat 8 e.timestamp_ns ++
    serializeNat 1 e.event_type ++ [0, 0, 0] ++
    serializeNat 4 e.payload.length ++ e.payload

/-- A full serialized record: body then the CRC32 of the body. -/
def serializeEvent (e : Event) : List Nat :=
  serializeBody e ++ serializeNat 4 (calculateCRC32 (serializeBody e))

/-! ## Log reader (EventLogReader.cpp)

The reader's mutable state: the memory-mapped bytes (a function from file
offsets to byte values), the cached mapped size, the read offset and the
is_open_ flag. The file path, descriptor and cached header do not influence
the modelled operations. Syscall results are passed in explicitly. -/

/-- EventLogReader state: mapped_data_, file_size_, offset_, is_open_. -/
structure ReaderState where
  data : Nat → Nat
  file_size : Nat
  offset : Nat
  is_open : Bool

/-- Errors the reader surfaces: the std::runtime_error for an unopened reader,
a propagated framer exception from parse, and the runtime_errors thrown when
munmap or mmap fail during re-map. -/
inductive ReadErr where
  | notOpen
  | parseFailure (e : ParseError)
  | munmapFailed
  | mmapFailed
deriving DecidableEq, Repr

/-- The len bytes of mapped memory starting at offset off
(the pointer mapped_data_ + off with a known length). -/
def mappedBytes (s : ReaderState) (off len : Nat) : List Nat :=
  (List.range len).map (fun i => s.data (off + i))

/-- EventLogReader::readNext. Returns the outcome (Except models the thrown
exceptions, an Option the bool-plus-out-parameter) together with the post
state. Check order follows the source: not-open throws, EOF and
incomplete-header and incomplete-event return false, then parse either throws
(offset untouched) or yields the event and the offset advances by the total
record size. -/
def readNext (s : ReaderState) : Except ReadErr (Option Event) × ReaderState :=
  if s.is_open = false then (.error .notOpen, s)
  else if s.file_size ≤ s.offset then (.ok none, s)
  else if s.file_size < s.offset + 24 then (.ok none, s)
  else
    let payload_length := readUint32LE (mappedBytes s (s.offset + 20) 4)
    let total_size := 28 + payload_length
    if s.file_size < s.offset + total_size then (.ok none, s)
    else
      match parse (mappedBytes s s.offset total_size) with
      | .error pe => (.error (.parseFailure pe), s)
      | .ok e => (.ok (some e), { s with offset := s.offset + total_size })

/-- EventLogReader::remapIfGrown. The fstat outcome (none = failure, some n =
the current on-disk size), the munmap outcome and the mmap outcome (the newly
mapped bytes, none = MAP_FAILED) are inputs. Mirrors the source order: a
non-open reader and a failed fstat return false; a size that has not grown
returns false; a munmap failure throws; file_size_ is updated before mmap, so
a mmap failure throws with the new size already cached; success installs the
new mapping and returns true. The offset field is never written. -/
def remapIfGrown (s : ReaderState) (statSize : Option Nat) (munmapOk : Bool)
    (mmapResult : Option (Nat → Nat)) : Except ReadErr Bool × ReaderState :=
  if s.is_open = false then (.ok false, s)
  else
    match statSize with
    | none => (.ok false, s)
    | some new_size =>
      if new_size ≤ s.file_size then (.ok false, s)
      else if munmapOk = false then (.error .munmapFailed, s)
      else
        let s1 := { s with file_size := new_size }
        match mmapResult with
        | none => (.error .mmapFailed, s1)
        | some newData => (.ok true, { s1 with data := newData })

/-! ## SPSC ring buffer (RingBuffer.h)

A sequential model: each operation is a function on the ring state, so a run
of operations is a sequential interleaving of try_push and try_pop calls.
head_ and tail_ are the two size_t indices, buffer_ the SIZE slots (a function
on Nat; only indices below SIZE are ever written or read). -/

/-- RingBuffer template state over item type T with compile-time SIZE. -/
structure RingBuffer (T : Type) (SIZE : Nat) where
  head : Nat
  tail : Nat
  buffer : Nat → T

/-- The freshly constructed ring: head_(0), tail_(0), value-initialized
storage. -/
def RingBuffer.new (T : Type) (SIZE : Nat) [Inhabited T] : RingBuffer T SIZE :=
  ⟨0, 0, fun _ => default⟩

/-- The conjunction of the two static_assert conditions guarding the template:
(SIZE & (SIZE - 1)) == 0 and SIZE > 0. A SIZE violating either cannot be
instantiated. -/
def ringBufferAsserts (SIZE : Nat) : Prop :=
  SIZE &&& (SIZE - 1) = 0 ∧ 0 < SIZE

/-- RingBuffer::try_push: compute next_tail with the power-of-two mask, report
full when it hits head, otherwise write the slot at the old tail and publish
next_tail. -/
def RingBuffer.try_push {T : Type} {SIZE : Nat} (rb : RingBuffer T SIZE)
    (item : T) : Bool × RingBuffer T SIZE :=
  let next_tail := (rb.tail + 1) &&& (SIZE - 1)
  if next_tail = rb.head then (false, rb)
  else
    (true, { rb with tail := next_tail,
                     buffer := fun i => if i = rb.tail then item else rb.buffer i })

/-- RingBuffer::try_pop: report empty when head meets tail, otherwise read the
slot at head and advance head with the mask. The popped item is the some case
of the returned Option. -/
def RingBuffer.try_pop {T : Type} {SIZE : Nat} (rb : RingBuffer T SIZE) :
    Option T × RingBuffer T SIZE :=
  if rb.head = rb.tail then (none, rb)
  else (some (rb.buffer rb.head),
        { rb with head := (rb.head + 1) &&& (SIZE - 1) })

/-- One call in a sequential interleaving: a try_push of a value or a
try_pop. -/
inductive RingOp (T : Type) where
  | push (x : T)
  | pop

/-- The observable outcome of one call: the bool returned by try_push, or the
bool-plus-out-parameter of try_pop collapsed into an Option. -/
inductive RingObs (T : Type) where
  | pushed (ok : Bool)
  | popped (r : Option T)
deriving DecidableEq

/-- Run a sequence of calls on the ring, collecting each call's observable
outcome. -/
def runRing {T : Type} {SIZE : Nat} :
    List (RingOp T) → RingBuffer T SIZE → List (RingObs T) × RingBuffer T SIZE
  | [], rb => ([], rb)
  | .push x :: ops, rb =>
    let r := rb.try_push x
    let rest := runRing ops r.2
    (.pushed r.1 :: rest.1, rest.2)
  | .pop :: ops, rb =>
    let r := rb.try_pop
    let rest := runRing ops r.2
    (.popped r.1 :: rest.1, rest.2)

/-- The reference FIFO queue of capacity cap: push appends at the back unless
cap items are buffered, pop takes the front. -/
def queuePush {T : Type} (cap : Nat) (q : List T) (x : T) : Bool × List T :=
  if q.length = cap then (false, q) else (true, q ++ [x])

/-- Reference FIFO pop: the front element, if any. -/
def queuePop {T : Type} (q : List T) : Option T × List T :=
  match q with
  | [] => (none, [])
  | x :: xs => (some x, xs)

/-- Run the same call sequence on the reference FIFO queue. -/
def runQueue {T : Type} (cap : Nat) :
    List (RingOp T) → List T → List (RingObs T) × List T
  | [], q => ([], q)
  | .push x :: ops, q =>
    let r := queuePush cap q x
    let rest := runQueue cap ops r.2
    (.pushed r.1 :: rest.1, rest.2)
  | .pop :: ops, q =>
    let r := queuePop q
    let rest := runQueue cap ops r.2
    (.popped r.1 :: rest.1, rest.2)

/-- Abstraction function: the queue contents currently buffered in the ring,
oldest first — the slots from head (inclusive) to tail (exclusive), indices
taken modulo SIZE. -/
def absQueue {T : Type} {SIZE : Nat} (rb : RingBuffer T SIZE) : List T :=
  (List.range ((rb.tail + SIZE - rb.head) % SIZE)).map
    (fun i => rb.buffer ((rb.head + i) % SIZE))

/-! ## Latency histogram (LatencyHistogram.cpp)

The std::map from latency to count is embedded as its iteration order: an
association list strictly sorted by key. total_count_ and sum_ are carried
verbatim. The double percentile argument becomes an exact rational; the
(size_t) cast of a non-negative value is the floor. -/

/-- LatencyHistogram state: samples_ (sorted key/count pairs), total_count_,
sum_. -/
structure LatencyHistogram where
  samples : List (Int × Nat)
  total_count : Nat
  sum : Int
deriving DecidableEq, Repr

/-- The default-constructed histogram (also the state after clear). -/
def emptyHistogram : LatencyHistogram := ⟨[], 0, 0⟩

/-- samples_[latency_ns]++ on the sorted association list. -/
def insertSample : List (Int × Nat) → Int → List (Int × Nat)
  | [], x => [(x, 1)]
  | (k, c) :: rest, x =>
    if x < k then (x, 1) :: (k, c) :: rest
    else if x = k then (k, c + 1) :: rest
    else (k, c) :: insertSample rest x

/-- LatencyHistogram::record. -/
def LatencyHistogram.record (h : LatencyHistogram) (latency_ns : Int) :
    LatencyHistogram :=
  ⟨insertSample h.samples latency_ns, h.total_count + 1, h.sum + latency_ns⟩

/-- LatencyHistogram::min: the first key, 0 when empty. -/
def LatencyHistogram.min (h : LatencyHistogram) : Int :=
  match h.samples with
  | [] => 0
  | (k, _) :: _ => k

/-- LatencyHistogram::max: the last key, 0 when empty. -/
def LatencyHistogram.max (h : LatencyHistogram) : Int :=
  match h.samples.getLast? with
  | none => 0
  | some kc => kc.1

/-- LatencyHistogram::mean: sum_ / total_count_ with C++ integer division
(truncation toward zero), 0 when no samples. -/
def LatencyHistogram.mean (h : LatencyHistogram) : Int :=
  if h.total_count = 0 then 0 else Int.tdiv h.sum (Int.ofNat h.total_count)

/-- The percentile loop: accumulate counts in iteration order and return the
first key whose cumulative count exceeds the target index; the fallback is
the unreachable trailing return max(). -/
def percentileLoop (samples : List (Int × Nat)) (cumulative target : Nat)
    (fallback : Int) : Int :=
  match samples with
  | [] => fallback
  | (latency, count) :: rest =>
    if target < cumulative + count then latency
    else percentileLoop rest (cumulative + count) target fallback

/-- LatencyHistogram::percentile: 0 when empty, otherwise clamp the target
index (size_t)(p * total_count_) to total_count_ - 1 and scan. -/
def LatencyHistogram.percentile (h : LatencyHistogram) (p : ℚ) : Int :=
  if h.total_count = 0 then 0
  else
    let target0 := (⌊p * (h.total_count : ℚ)⌋).toNat
    let target := if h.total_count ≤ target0 then h.total_count - 1 else target0
    percentileLoop h.samples 0 target h.max

/-- Strict ascending order of the association-list keys (the iteration order
std::map guarantees). -/
def sortedStrict : List (Int × Nat) → Bool
  | [] => true
  | [_] => true
  | a :: b :: rest => decide (a.1 < b.1) && sortedStrict (b :: rest)

/-- Well-formedness of a histogram state: exactly the states std::map can
reach — keys strictly sorted, counts positive, total_count_ the sum of the
counts. -/
def LatencyHistogram.WF (h : LatencyHistogram) : Prop :=
  sortedStrict h.samples = true ∧ (∀ pr ∈ h.samples, 0 < pr.2) ∧
    h.total_count = (h.samples.map Prod.snd).sum

/-! ## Driver exit status (event_processor_main.cpp)

Worker-thread failures are caught inside producerThread and consumerThread;
they print to stderr and clear g_running, and nothing of them reaches main.
main joins the threads, prints totals and executes an unconditional
return 0. -/

/-- Whether each worker thread recorded an unrecoverable error (took its catch
branch) during the run. -/
structure WorkerOutcome where
  producerFailed : Bool
  consumerFailed : Bool
deriving DecidableEq, Repr

/-- The value main returns after both workers joined: the source returns the
literal 0 on its only return path, whatever the workers recorded. -/
def mainExitCode (_w : WorkerOutcome) : Nat := 0

/-! ## Concrete inputs used by witnesses and counterexamples -/

-- DecidableEq for parser results, so witnesses can evaluate them.
deriving instance DecidableEq for Except

/-- A small event: sequence 1, timestamp 1000 ns, TRADE_CREATED, one payload
byte. -/
def sampleEvent : Event := ⟨1, 1000, 1, [65], 0⟩

/-- 16 header bytes whose magic and version are the expected constants but
whose reserved field is 1, not 0. -/
def headerBytesReservedOne : List Nat :=
  [0x44, 0x41, 0x52, 0x54, 1, 0, 0, 0, 1, 0, 0, 0, 0, 0, 0, 0]

/-- A reader on which open() has not succeeded. -/
def unopenedReader : ReaderState := ⟨fun _ => 0, 16, 0, false⟩

/-- An opened reader positioned at the end of a header-only file. -/
def openEmptyReader : ReaderState := ⟨fun _ => 0, 16, 16, true⟩

/-- A well-formed histogram: two samples of 5 ns and one of 7 ns. -/
def sampleHistogram : LatencyHistogram := ⟨[(5, 2), (7, 1)], 3, 17⟩

/-! ## Shared arithmetic and list lemmas -/

theorem lor_eq_add (a : Nat) : ∀ b : Nat, a &&& b = 0 → a ||| b = a + b := by
  induction a using Nat.binaryRec with
  | z => intro b _; simp
  | f a0 a ih =>
    intro b h
    rw [← Nat.bit_decomp b] at h ⊢
    rw [Nat.land_bit] at h
    rw [Nat.lor_bit]
    obtain ⟨h2, h3⟩ := Nat.bit_eq_zero_iff.mp h
    rw [ih _ h2]
    cases a0 <;> cases hb : b.bodd <;>
      simp [hb, Nat.bit_val] at h3 ⊢ <;> omega

theorem land_shiftLeft_eq_zero (a b k : Nat) (h : a < 2 ^ k) :
    a &&& (b <<< k) = 0 := by
  apply Nat.eq_of_testBit_eq
  intro j
  simp only [Nat.testBit_land, Nat.testBit_shiftLeft, Nat.zero_testBit]
  rcases Nat.lt_or_ge j k with hj | hj
  · simp [Nat.not_le.mpr hj]
  · have hlt : a < 2 ^ j := lt_of_lt_of_le h (Nat.pow_le_pow_right (by norm_num) hj)
    simp [Nat.testBit_lt_two_pow hlt]

theorem lor_shiftLeft_eq_add (a b k : Nat) (h : a < 2 ^ k) :
    a ||| (b <<< k) = a + b * 2 ^ k := by
  rw [lor_eq_add _ _ (land_shiftLeft_eq_zero a b k h), Nat.shiftLeft_eq]

theorem byteAt_append (l1 l2 : List Nat) (i : Nat) (h : i < l1.length) :
    byteAt (l1 ++ l2) i = byteAt l1 i :=
  List.getD_append l1 l2 0 i h

theorem byteAt_drop (l : List Nat) (n i : Nat) :
    byteAt (l.drop n) i = byteAt l (n + i) := by
  simp [byteAt, List.getD, List.getElem?_drop]

theorem length_serializeNat (w n : Nat) : (serializeNat w n).length = w := by
  simp [serializeNat]

theorem byteAt_serializeNat (w n i : Nat) (h : i < w) :
    byteAt (serializeNat w n) i = (n >>> (8 * i)) &&& 255 := by
  simp [byteAt, serializeNat, List.getD, List.getElem?_map, List.getElem?_range h]

theorem masked_lt (x : Nat) : x &&& 255 < 256 :=
  lt_of_le_of_lt (Nat.and_le_right) (by norm_num)

theorem drop_serializeNat (w n : Nat) (rest : List Nat) (k : Nat) :
    (serializeNat w n ++ rest).drop (w + k) = rest.drop k := by
  have h := @List.drop_append Nat (serializeNat w n) rest k
  rwa [length_serializeNat] at h

theorem take_serializeBody (e : Event) (rest : List Nat) :
    (serializeBody e ++ rest).take (24 + e.payload.length) = serializeBody e := by
  have hlen : (serializeBody e).length = 24 + e.payload.length := by
    simp [serializeBody, length_serializeNat]; omega
  rw [← hlen]
  exact List.take_left _ _

theorem readUint32LE_serializeNat (n : Nat) (rest : List Nat) :
    readUint32LE (serializeNat 4 n ++ rest) = n % 2 ^ 32 := by
  have hb : ∀ i, i < 4 → byteAt (serializeNat 4 n ++ rest) i = (n >>> (8 * i)) &&& 255 := by
    intro i hi
    rw [byteAt_append _ _ _ (by rw [length_serializeNat]; omega),
      byteAt_serializeNat _ _ _ hi]
  unfold readUint32LE
  rw [hb 0 (by omega), hb 1 (by omega), hb 2 (by omega), hb 3 (by omega)]
  simp only [show (8 : Nat) * 0 = 0 from rfl, show (8 : Nat) * 1 = 8 from rfl,
    show (8 : Nat) * 2 = 16 from rfl, show (8 : Nat) * 3 = 24 from rfl]
  have m0 := masked_lt (n >>> 0)
  have m1 := masked_lt (n >>> 8)
  have m2 := masked_lt (n >>> 16)
  rw [lor_shiftLeft_eq_add _ _ _ (by omega : (n >>> 0) &&& 255 < 2 ^ 8)]
  rw [lor_shiftLeft_eq_add _ _ _ (by omega :
    ((n >>> 0) &&& 255) + ((n >>> 8) &&& 255) * 2 ^ 8 < 2 ^ 16)]
  rw [lor_shiftLeft_eq_add _ _ _ (by omega :
    ((n >>> 0) &&& 255) + ((n >>> 8) &&& 255) * 2 ^ 8 + ((n >>> 16) &&& 255) * 2 ^ 16 < 2 ^ 24)]
  have h255 : (255 : Nat) = 2 ^ 8 - 1 := by norm_num
  simp only [h255, Nat.and_pow_two_sub_one_eq_mod, Nat.shiftRight_eq_div_pow]
  omega

theorem readUint64LE_serializeNat (n : Nat) (rest : List Nat) :
    readUint64LE (serializeNat 8 n ++ rest) = n % 2 ^ 64 := by
  have hb : ∀ i, i < 8 → byteAt (serializeNat 8 n ++ rest) i = (n >>> (8 * i)) &&& 255 := by
    intro i hi
    rw [byteAt_append _ _ _ (by rw [length_serializeNat]; omega),
      byteAt_serializeNat _ _ _ hi]
  unfold readUint64LE
  rw [hb 0 (by omega), hb 1 (by omega), hb 2 (by omega), hb 3 (by omega),
    hb 4 (by omega), hb 5 (by omega), hb 6 (by omega), hb 7 (by omega)]
  simp only [show (8 : Nat) * 0 = 0 from rfl, show (8 : Nat) * 1 = 8 from rfl,
    show (8 : Nat) * 2 = 16 from rfl, show (8 : Nat) * 3 = 24 from rfl,
    show (8 : Nat) * 4 = 32 from rfl, show (8 : Nat) * 5 = 40 from rfl,
    show (8 : Nat) * 6 = 48 from rfl, show (8 : Nat) * 7 = 56 from rfl]
  have m0 := masked_lt (n >>> 0)
  have m1 := masked_lt (n >>> 8)
  have m2 := masked_lt (n >>> 16)
  have m3 := masked_lt (n >>> 24)
  have m4 := masked_lt (n >>> 32)
  have m5 := masked_lt (n >>> 40)
  have m6 := masked_lt (n >>> 48)
  rw [lor_shiftLeft_eq_add _ _ _ (by omega : (n >>> 0) &&& 255 < 2 ^ 8)]
  rw [lor_shiftLeft_eq_add _ _ _ (by omega :
    ((n >>> 0) &&& 255) + ((n >>> 8) &&& 255) * 2 ^ 8 < 2 ^ 16)]
  rw [lor_shiftLeft_eq_add _ _ _ (by omega :
    ((n >>> 0) &&& 255) + ((n >>> 8) &&& 255) * 2 ^ 8 + ((n >>> 16) &&& 255) * 2 ^ 16 < 2 ^ 24)]
  rw [lor_shiftLeft_eq_add _ _ _ (by omega :
    ((n >>> 0) &&& 255) + ((n >>> 8) &&& 255) * 2 ^ 8 + ((n >>> 16) &&& 255) * 2 ^ 16 +
      ((n >>> 24) &&& 255) * 2 ^ 24 < 2 ^ 32)]
  rw [lor_shiftLeft_eq_add _ _ _ (by omega :
    ((n >>> 0) &&& 255) + ((n >>> 8) &&& 255) * 2 ^ 8 + ((n >>> 16) &&& 255) * 2 ^ 16 +
      ((n >>> 24) &&& 255) * 2 ^ 24 + ((n >>> 32) &&& 255) * 2 ^ 32 < 2 ^ 40)]
  rw [lor_shiftLeft_eq_add _ _ _ (by omega :
    ((n >>> 0) &&& 255) + ((n >>> 8) &&& 255) * 2 ^ 8 + ((n >>> 16) &&& 255) * 2 ^ 16 +
      ((n >>> 24) &&& 255) * 2 ^ 24 + ((n >>> 32) &&& 255) * 2 ^ 32 +
      ((n >>> 40) &&& 255) * 2 ^ 40 < 2 ^ 48)]
  rw [lor_shiftLeft_eq_add _ _ _ (by omega :
    ((n >>> 0) &&& 255) + ((n >>> 8) &&& 255) * 2 ^ 8 + ((n >>> 16) &&& 255) * 2 ^ 16 +
      ((n >>> 24) &&& 255) * 2 ^ 24 + ((n >>> 32) &&& 255) * 2 ^ 32 +
      ((n >>> 40) &&& 255) * 2 ^ 40 + ((n >>> 48) &&& 255) * 2 ^ 48 < 2 ^ 56)]
  have h255 : (255 : Nat) = 2 ^ 8 - 1 := by norm_num
  simp only [h255, Nat.and_pow_two_sub_one_eq_mod, Nat.shiftRight_eq_div_pow]
  omega

theorem crc32UpdateBit_lt (c : Nat) (h : c < 2 ^ 32) : crc32UpdateBit c < 2 ^ 32 := by
  have hs : c >>> 1 < 2 ^ 32 := by
    rw [Nat.shiftRight_eq_div_pow]
    omega
  unfold crc32UpdateBit
  split
  · exact Nat.xor_lt_two_pow hs (by norm_num)
  · exact hs

theorem iterate_crc32UpdateBit_lt (n : Nat) : ∀ x : Nat, x < 2 ^ 32 →
    crc32UpdateBit^[n] x < 2 ^ 32 := by
  induction n with
  | zero => intro x h; simpa using h
  | succ k ih =>
    intro x h
    rw [Function.iterate_succ_apply]
    exact ih _ (crc32UpdateBit_lt _ h)

theorem crc32UpdateByte_lt (c b : Nat) (h : c < 2 ^ 32) :
    crc32UpdateByte c b < 2 ^ 32 :=
  iterate_crc32UpdateBit_lt 8 _
    (Nat.xor_lt_two_pow h (lt_of_lt_of_le (masked_lt b) (by norm_num)))

theorem foldl_crc32UpdateByte_lt (data : List Nat) : ∀ c : Nat, c < 2 ^ 32 →
    data.foldl crc32UpdateByte c < 2 ^ 32 := by
  induction data with
  | nil => intro c h; simpa using h
  | cons b rest ih =>
    intro c h
    rw [List.foldl_cons]
    exact ih _ (crc32UpdateByte_lt _ _ h)

theorem calculateCRC32_lt (data : List Nat) : calculateCRC32 data < 2 ^ 32 :=
  Nat.xor_lt_two_pow (foldl_crc32UpdateByte_lt data _ (by norm_num)) (by norm_num)
theorem drop_chunk (w n : Nat) (rest : List Nat) (m k : Nat) (hm : m = w + k) :
    (serializeNat w n ++ rest).drop m = rest.drop k := by
  subst hm
  exact drop_serializeNat w n rest k

theorem drop_three (a b c : Nat) (rest : List Nat) (m k : Nat) (hm : m = 3 + k) :
    (([a, b, c] : List Nat) ++ rest).drop m = rest.drop k := by
  subst hm
  have h := @List.drop_append Nat [a, b, c] rest k
  simpa using h

theorem serializeEvent_assoc (e : Event) :
    serializeEvent e =
      serializeNat 8 e.sequence_num ++ (serializeNat 8 e.timestamp_ns ++
        (serializeNat 1 e.event_type ++ ([0, 0, 0] ++
          (serializeNat 4 e.payload.length ++ (e.payload ++
            serializeNat 4 (calculateCRC32 (serializeBody e))))))) := by
  simp [serializeEvent, serializeBody, List.append_assoc]

theorem length_serializeEvent (e : Event) :
    (serializeEvent e).length = 28 + e.payload.length := by
  simp [serializeEvent, serializeBody, length_serializeNat]
  omega

theorem drop20_serializeEvent (e : Event) :
    (serializeEvent e).drop 20 =
      serializeNat 4 e.payload.length ++ (e.payload ++
        serializeNat 4 (calculateCRC32 (serializeBody e))) := by
  rw [serializeEvent_assoc]
  rw [drop_chunk 8 _ _ 20 12 (by norm_num), drop_chunk 8 _ _ 12 4 (by norm_num),
    drop_chunk 1 _ _ 4 3 (by norm_num), drop_three _ _ _ _ 3 0 (by norm_num)]
  exact List.drop_zero _

theorem drop24_serializeEvent (e : Event) :
    (serializeEvent e).drop 24 =
      e.payload ++ serializeNat 4 (calculateCRC32 (serializeBody e)) := by
  rw [serializeEvent_assoc]
  rw [drop_chunk 8 _ _ 24 16 (by norm_num), drop_chunk 8 _ _ 16 8 (by norm_num),
    drop_chunk 1 _ _ 8 7 (by norm_num), drop_three _ _ _ _ 7 4 (by norm_num),
    drop_chunk 4 _ _ 4 0 (by norm_num)]
  exact List.drop_zero _

theorem dropCrc_serializeEvent (e : Event) :
    (serializeEvent e).drop (24 + e.payload.length) =
      serializeNat 4 (calculateCRC32 (serializeBody e)) := by
  have h := congrArg (List.drop e.payload.length) (drop24_serializeEvent e)
  rw [List.drop_drop] at h
  rw [h]
  exact List.drop_left _ _

theorem take_serializeEvent (e : Event) :
    (serializeEvent e).take (24 + e.payload.length) = serializeBody e := by
  rw [serializeEvent]
  exact take_serializeBody e _

theorem drop8_serializeEvent (e : Event) :
    (serializeEvent e).drop 8 =
      serializeNat 8 e.timestamp_ns ++
        (serializeNat 1 e.event_type ++ ([0, 0, 0] ++
          (serializeNat 4 e.payload.length ++ (e.payload ++
            serializeNat 4 (calculateCRC32 (serializeBody e)))))) := by
  rw [serializeEvent_assoc]
  have h := drop_serializeNat 8 e.sequence_num
    (serializeNat 8 e.timestamp_ns ++
      (serializeNat 1 e.event_type ++ ([0, 0, 0] ++
        (serializeNat 4 e.payload.length ++ (e.payload ++
          serializeNat 4 (calculateCRC32 (serializeBody e))))))) 0
  simpa using h

theorem drop16_serializeEvent (e : Event) :
    (serializeEvent e).drop 16 =
      serializeNat 1 e.event_type ++ ([0, 0, 0] ++
        (serializeNat 4 e.payload.length ++ (e.payload ++
          serializeNat 4 (calculateCRC32 (serializeBody e))))) := by
  rw [serializeEvent_assoc]
  rw [drop_chunk 8 _ _ 16 8 (by norm_num), drop_chunk 8 _ _ 8 0 (by norm_num)]
  exact List.drop_zero _

/-- C2: parsing the serialization of an event with payload_length below 2^32
succeeds and returns its sequence_num, timestamp_ns, event_type and payload
unchanged, with the crc32 field equal to the zlib CRC32 of the first
24 + payload_length serialized bytes. -/
theorem c2_parse_roundtrip (e : Event)
    (h1 : e.payload.length < 2 ^ 32) (h2 : e.sequence_num < 2 ^ 64)
    (h3 : e.timestamp_ns < 2 ^ 64) (h4 : e.event_type < 256) :
    parse (serializeEvent e) =
      .ok { e with
        crc32 := calculateCRC32 ((serializeEvent e).take (24 + e.payload.length)) } := by
  have hseq : readUint64LE (serializeEvent e) = e.sequence_num := by
    rw [serializeEvent_assoc, readUint64LE_serializeNat, Nat.mod_eq_of_lt h2]
  have hts : readUint64LE ((serializeEvent e).drop 8) = e.timestamp_ns := by
    rw [drop8_serializeEvent, readUint64LE_serializeNat, Nat.mod_eq_of_lt h3]
  have het : byteAt (serializeEvent e) 16 = e.event_type := by
    have hb := byteAt_drop (serializeEvent e) 16 0
    rw [drop16_serializeEvent] at hb
    rw [byteAt_append _ _ _ (by rw [length_serializeNat]; omega),
      byteAt_serializeNat _ _ _ (by omega)] at hb
    have h255 : (255 : Nat) = 2 ^ 8 - 1 := by norm_num
    rw [show (16 + 0 : Nat) = 16 from rfl] at hb
    rw [← hb, show (8 * 0 : Nat) = 0 from rfl, Nat.shiftRight_zero, h255,
      Nat.and_pow_two_sub_one_eq_mod, Nat.mod_eq_of_lt h4]
  have hpl : readUint32LE ((serializeEvent e).drop 20) = e.payload.length := by
    rw [drop20_serializeEvent, readUint32LE_serializeNat, Nat.mod_eq_of_lt h1]
  have hcrc : readUint32LE ((serializeEvent e).drop (24 + e.payload.length)) =
      calculateCRC32 (serializeBody e) := by
    have h5 := readUint32LE_serializeNat (calculateCRC32 (serializeBody e)) []
    rw [List.append_nil] at h5
    rw [dropCrc_serializeEvent, h5, Nat.mod_eq_of_lt (calculateCRC32_lt _)]
  have hpay : ((serializeEvent e).drop 24).take e.payload.length = e.payload := by
    rw [drop24_serializeEvent]
    exact List.take_left _ _
  unfold parse
  rw [length_serializeEvent, hpl]
  rw [if_neg (by omega), if_neg (by omega)]
  rw [take_serializeEvent, hcrc, if_pos rfl]
  rw [hseq, hts, het, hpay]

/-- Witness for C2 at a concrete event. -/
theorem c2_parse_roundtrip_witness :
    sampleEvent.payload.length < 2 ^ 32 ∧ sampleEvent.sequence_num < 2 ^ 64 ∧
      sampleEvent.timestamp_ns < 2 ^ 64 ∧ sampleEvent.event_type < 256 ∧
      parse (serializeEvent sampleEvent) =
        .ok { sampleEvent with
          crc32 := calculateCRC32
            ((serializeEvent sampleEvent).take (24 + sampleEvent.payload.length)) } :=
  ⟨by decide, by decide, by decide, by decide,
    c2_parse_roundtrip sampleEvent (by decide) (by decide) (by decide) (by decide)⟩
theorem byteAt_take (l : List Nat) (n i : Nat) (h : i < n) :
    byteAt (l.take n) i = byteAt l i := by
  simp [byteAt, List.getD, List.getElem?_take, h]

theorem readUint32LE_congr (d1 d2 : List Nat)
    (h : ∀ i, i < 4 → byteAt d1 i = byteAt d2 i) :
    readUint32LE d1 = readUint32LE d2 := by
  unfold readUint32LE
  rw [h 0 (by omega), h 1 (by omega), h 2 (by omega), h 3 (by omega)]

/-- C3: parse applied to any strict prefix of a well-formed serialized record
fails with the plain ParseException (insufficient data), never with the
CorruptedEventException CRC mismatch. -/
theorem c3_truncation (e : Event) (h1 : e.payload.length < 2 ^ 32) (k : Nat)
    (hk : k < 28 + e.payload.length) :
    parse ((serializeEvent e).take k) = .error .parseException := by
  have hlen : ((serializeEvent e).take k).length = k := by
    rw [List.length_take, length_serializeEvent]
    omega
  rcases Nat.lt_or_ge k 28 with hsmall | hbig
  · unfold parse
    rw [hlen, if_pos hsmall]
  · have hpl : readUint32LE (((serializeEvent e).take k).drop 20) =
        e.payload.length := by
      have hcongr : readUint32LE (((serializeEvent e).take k).drop 20) =
          readUint32LE ((serializeEvent e).drop 20) := by
        apply readUint32LE_congr
        intro i hi
        rw [byteAt_drop, byteAt_drop, byteAt_take _ _ _ (by omega)]
      rw [hcongr, drop20_serializeEvent, readUint32LE_serializeNat,
        Nat.mod_eq_of_lt h1]
    unfold parse
    rw [hlen, if_neg (by omega), hpl, if_pos (by omega)]

/-- Witness for C3: a 28-byte prefix of a 29-byte record. -/
theorem c3_truncation_witness :
    sampleEvent.payload.length < 2 ^ 32 ∧ 28 < 28 + sampleEvent.payload.length ∧
      parse ((serializeEvent sampleEvent).take 28) = .error .parseException :=
  ⟨by decide, by decide, c3_truncation sampleEvent (by decide) 28 (by decide)⟩
theorem byteAt_mappedBytes (s : ReaderState) (off len i : Nat) (h : i < len) :
    byteAt (mappedBytes s off len) i = s.data (off + i) := by
  simp [byteAt, mappedBytes, List.getD, List.getElem?_map, List.getElem?_range h]

theorem length_mappedBytes (s : ReaderState) (off len : Nat) :
    (mappedBytes s off len).length = len := by
  simp [mappedBytes]

theorem parse_ok_payload_length (data : List Nat) (e : Event)
    (h : parse data = .ok e) :
    e.payload.length = readUint32LE (data.drop 20) := by
  unfold parse at h
  by_cases hl : data.length < 28
  · rw [if_pos hl] at h
    exact absurd h (by simp)
  · rw [if_neg hl] at h
    by_cases h2 : data.length < 28 + readUint32LE (data.drop 20)
    · rw [if_pos h2] at h
      exact absurd h (by simp)
    · rw [if_neg h2] at h
      by_cases h3 : calculateCRC32 (data.take (24 + readUint32LE (data.drop 20))) =
          readUint32LE (data.drop (24 + readUint32LE (data.drop 20)))
      · rw [if_pos h3] at h
        injection h with h4
        rw [← h4]
        simp only [List.length_take, List.length_drop]
        omega
      · rw [if_neg h3] at h
        exact absurd h (by simp)

theorem readNext_pl_agrees (s : ReaderState) (pl : Nat) :
    readUint32LE ((mappedBytes s s.offset (28 + pl)).drop 20) =
      readUint32LE (mappedBytes s (s.offset + 20) 4) := by
  apply readUint32LE_congr
  intro i hi
  rw [byteAt_drop, byteAt_mappedBytes _ _ _ _ (by omega),
    byteAt_mappedBytes _ _ _ _ (by omega)]
  congr 1
  omega

/-- C4: on an open reader, a readNext that returns an event advances the
offset by exactly 28 + payload_length of that event (and touches nothing
else); a readNext that returns false or throws leaves the state — in
particular the offset — unchanged. -/
theorem c4_offset_advance (s : ReaderState) (h : s.is_open = true) :
    (∀ e s2, readNext s = (.ok (some e), s2) →
      s2.offset = s.offset + (28 + e.payload.length) ∧ s2.data = s.data ∧
        s2.file_size = s.file_size ∧ s2.is_open = s.is_open) ∧
    (∀ s2, readNext s = (.ok none, s2) → s2 = s) ∧
    (∀ err s2, readNext s = (.error err, s2) → s2 = s) := by
  unfold readNext
  rw [h, if_neg (by simp : ¬(true = false))]
  by_cases h1 : s.file_size ≤ s.offset
  · rw [if_pos h1]
    refine ⟨fun e s2 heq => ?_, fun s2 heq => ?_, fun err s2 heq => ?_⟩
    · simp at heq
    · simp at heq
      exact heq.symm
    · simp at heq
  · rw [if_neg h1]
    by_cases h2 : s.file_size < s.offset + 24
    · rw [if_pos h2]
      refine ⟨fun e s2 heq => ?_, fun s2 heq => ?_, fun err s2 heq => ?_⟩
      · simp at heq
      · simp at heq
        exact heq.symm
      · simp at heq
    · rw [if_neg h2]
      by_cases h3 : s.file_size < s.offset +
          (28 + readUint32LE (mappedBytes s (s.offset + 20) 4))
      · rw [if_pos h3]
        refine ⟨fun e s2 heq => ?_, fun s2 heq => ?_, fun err s2 heq => ?_⟩
        · simp at heq
        · simp at heq
          exact heq.symm
        · simp at heq
      · rw [if_neg h3]
        rcases hparse : parse (mappedBytes s s.offset
            (28 + readUint32LE (mappedBytes s (s.offset + 20) 4))) with pe | ev
        · simp only [hparse]
          refine ⟨fun e s2 heq => ?_, fun s2 heq => ?_, fun err s2 heq => ?_⟩
          · simp at heq
          · simp at heq
          · simp at heq
            exact heq.2.symm
        · simp only [hparse]
          refine ⟨fun e s2 heq => ?_, fun s2 heq => ?_, fun err s2 heq => ?_⟩
          · simp at heq
            obtain ⟨hev, hs2⟩ := heq
            have hpl := parse_ok_payload_length _ _ hparse
            rw [readNext_pl_agrees] at hpl
            rw [← hs2, ← hev]
            refine ⟨?_, rfl, rfl, rfl⟩
            simp [hpl]
          · simp at heq
          · simp at heq

/-- Witness for C4 at a concrete open reader. -/
theorem c4_offset_advance_witness :
    openEmptyReader.is_open = true ∧
      (∀ s2, readNext openEmptyReader = (.ok none, s2) → s2 = openEmptyReader) :=
  ⟨rfl, (c4_offset_advance openEmptyReader rfl).2.1⟩
theorem remapIfGrown_preserves (s : ReaderState) (statSize : Option Nat)
    (munmapOk : Bool) (mmapResult : Option (Nat → Nat)) :
    (remapIfGrown s statSize munmapOk mmapResult).2.offset = s.offset ∧
      (remapIfGrown s statSize munmapOk mmapResult).2.is_open = s.is_open := by
  unfold remapIfGrown
  repeat' split
  all_goals exact ⟨rfl, rfl⟩

/-- C6: on an open reader whose re-map syscalls succeed, remapIfGrown returns
true exactly when the size reported by fstat exceeds the currently mapped
size; and whatever the syscalls do, the read offset (and the open flag) is
left unchanged. -/
theorem c6_remap_grown (s : ReaderState) (n : Nat) (newData : Nat → Nat)
    (hopen : s.is_open = true) :
    ((remapIfGrown s (some n) true (some newData)).1 = .ok true ↔
      s.file_size < n) ∧
    (∀ statSize munmapOk mmapResult,
      (remapIfGrown s statSize munmapOk mmapResult).2.offset = s.offset ∧
        (remapIfGrown s statSize munmapOk mmapResult).2.is_open = s.is_open) := by
  refine ⟨?_, fun statSize munmapOk mmapResult => remapIfGrown_preserves _ _ _ _⟩
  unfold remapIfGrown
  rw [hopen]
  simp only [Bool.true_eq_false, if_false]
  split
  · constructor
    · intro h2
      exact absurd h2 (by simp)
    · intro h2
      omega
  · constructor
    · intro _
      omega
    · intro _
      rfl

/-- Witness for C6 at a concrete open reader and stat result. -/
theorem c6_remap_grown_witness :
    openEmptyReader.is_open = true ∧
      ((remapIfGrown openEmptyReader (some 32) true (some (fun _ => 0))).1 =
          .ok true ↔ openEmptyReader.file_size < 32) :=
  ⟨rfl, (c6_remap_grown openEmptyReader 32 (fun _ => 0) rfl).1⟩

/-- C10: on a reader whose open has not succeeded, readNext always throws the
Reader-not-open runtime_error with the state unchanged, while remapIfGrown
silently returns false with the state unchanged. -/
theorem c10_unopened (s : ReaderState) (h : s.is_open = false) :
    readNext s = (.error .notOpen, s) ∧
      (∀ statSize munmapOk mmapResult,
        remapIfGrown s statSize munmapOk mmapResult = (.ok false, s)) := by
  constructor
  · unfold readNext
    rw [if_pos h]
  · intro statSize munmapOk mmapResult
    unfold remapIfGrown
    rw [if_pos h]

/-- Witness for C10 at a concrete unopened reader. -/
theorem c10_unopened_witness :
    unopenedReader.is_open = false ∧
      readNext unopenedReader = (.error .notOpen, unopenedReader) :=
  ⟨rfl, (c10_unopened unopenedReader rfl).1⟩
/-- C5 counterexample: 16 bytes whose magic and version match the expected
constants but whose reserved field is 1 — a field "not matching the expected
constants" — are accepted by parseFileHeader rather than rejected. -/
theorem c5_reserved_ignored_counterexample :
    parseFileHeader headerBytesReservedOne =
      .ok { magic := 0x54524144, version := 1, reserved := 1 } ∧
      (1 : Nat) ≠ 0 := by
  constructor
  · decide
  · decide

/-- C5 amended: given at least 16 bytes, parseFileHeader succeeds exactly when
magic equals 0x54524144 and version equals 1; the 64-bit reserved field is
read but never checked, and any mismatch of magic or version is a
ParseException. -/
theorem c5_header_magic_version_only (data : List Nat) (h : 16 ≤ data.length) :
    parseFileHeader data =
      if readUint32LE data = 0x54524144 ∧ readUint32LE (data.drop 4) = 1 then
        .ok ⟨readUint32LE data, readUint32LE (data.drop 4),
             readUint64LE (data.drop 8)⟩
      else .error .parseException := by
  unfold parseFileHeader
  rw [if_neg (by omega)]
  by_cases h1 : readUint32LE data = 0x54524144 ∧ readUint32LE (data.drop 4) = 1
  · rw [if_pos h1]
    rw [if_pos (by simp [FileHeader.isValid, h1.1, h1.2])]
  · rw [if_neg h1]
    rw [if_neg (by simp [FileHeader.isValid]; tauto)]

/-- Witness for the amended C5 at concrete header bytes. -/
theorem c5_header_magic_version_only_witness :
    16 ≤ headerBytesReservedOne.length ∧
      parseFileHeader headerBytesReservedOne =
        if readUint32LE headerBytesReservedOne = 0x54524144 ∧
            readUint32LE (headerBytesReservedOne.drop 4) = 1 then
          .ok ⟨readUint32LE headerBytesReservedOne,
               readUint32LE (headerBytesReservedOne.drop 4),
               readUint64LE (headerBytesReservedOne.drop 8)⟩
        else .error .parseException :=
  ⟨by decide, c5_header_magic_version_only headerBytesReservedOne (by decide)⟩

/-- C7: the exit status of main is the literal 0 on every path — also when a
worker thread recorded an unrecoverable error — contradicting the specified
non-zero-iff-error exit status. -/
theorem c7_exit_code_always_zero :
    mainExitCode ⟨true, false⟩ = 0 ∧ mainExitCode ⟨false, true⟩ = 0 ∧
      mainExitCode ⟨false, false⟩ = 0 :=
  ⟨rfl, rfl, rfl⟩

/-- C8 counterexample: SIZE = 1 passes both static_asserts — it is a power of
two and positive — yet is smaller than 2, so a capacity below 2 is not
rejected at compile time. -/
theorem c8_size_one_accepted : ringBufferAsserts 1 ∧ ¬(2 ≤ 1) := by
  unfold ringBufferAsserts
  refine ⟨⟨?_, ?_⟩, ?_⟩ <;> decide

/-- C8 amended: the static_asserts accept exactly the powers of two (including
2^0 = 1): a non-power-of-two or zero capacity is rejected at compile time, and
every constructible RingBuffer has SIZE = 2^k for some k ≥ 0. -/
theorem c8_asserts_iff_pow_two (S : Nat) :
    ringBufferAsserts S ↔ ∃ k, S = 2 ^ k := by
  unfold ringBufferAsserts
  constructor
  · rintro ⟨hand, hpos⟩
    refine ⟨Nat.log2 S, ?_⟩
    have hle : 2 ^ Nat.log2 S ≤ S := Nat.log2_self_le (by omega)
    have hlt : S < 2 ^ (Nat.log2 S + 1) := Nat.lt_log2_self
    set k := Nat.log2 S with hk
    rw [Nat.pow_succ] at hlt
    by_contra hne
    have hr : S - 2 ^ k < 2 ^ k := by omega
    have hr1 : S - 2 ^ k - 1 < 2 ^ k := by omega
    have hS : S = 2 ^ k + (S - 2 ^ k) := by omega
    have hS1 : S - 1 = 2 ^ k + (S - 2 ^ k - 1) := by omega
    have hb1 : S.testBit k = true := by
      rw [hS, Nat.testBit_two_pow_add_eq, Nat.testBit_eq_false_of_lt hr]
      rfl
    have hb2 : (S - 1).testBit k = true := by
      rw [hS1, Nat.testBit_two_pow_add_eq, Nat.testBit_eq_false_of_lt hr1]
      rfl
    have hb3 : (S &&& (S - 1)).testBit k = true := by
      rw [Nat.testBit_land, hb1, hb2]
      rfl
    rw [hand, Nat.zero_testBit] at hb3
    exact Bool.noConfusion hb3
  · rintro ⟨k, rfl⟩
    constructor
    · rw [Nat.and_pow_two_sub_one_eq_mod]
      exact Nat.mod_self _
    · exact Nat.pos_pow_of_pos k (by norm_num)
theorem max_eq_getLast (h : LatencyHistogram) :
    h.max = ((h.samples.getLast?).map Prod.fst).getD 0 := by
  unfold LatencyHistogram.max
  cases h.samples.getLast? with
  | none => rfl
  | some kc => rfl

theorem percentileLoop_hits_last (l : List (Int × Nat)) : ∀ (cum : Nat) (fb : Int),
    l ≠ [] → (∀ pr ∈ l, 0 < pr.2) →
    percentileLoop l cum (cum + (l.map Prod.snd).sum - 1) fb =
      ((l.getLast?).map Prod.fst).getD fb := by
  induction l with
  | nil => intro cum fb hne _; exact absurd rfl hne
  | cons kc rest ih =>
    intro cum fb _ hpos
    obtain ⟨k, c⟩ := kc
    have hc : 0 < c := hpos (k, c) (by simp)
    cases rest with
    | nil =>
      unfold percentileLoop
      rw [if_pos (by simp; omega)]
      simp
    | cons r rs =>
      have hr : 0 < r.2 := hpos r (by simp)
      unfold percentileLoop
      rw [if_neg (by simp only [List.map_cons, List.sum_cons]; omega)]
      have harith : cum + (((k, c) :: r :: rs).map Prod.snd).sum - 1 =
          (cum + c) + ((r :: rs).map Prod.snd).sum - 1 := by
        simp only [List.map_cons, List.sum_cons]
        omega
      rw [harith, ih (cum + c) fb (by simp) (fun pr hpr => hpos pr (by simp [hpr]))]
      rw [List.getLast?_cons_cons]

theorem wf_total_zero_samples_nil (h : LatencyHistogram) (hwf : h.WF)
    (h0 : h.total_count = 0) : h.samples = [] := by
  obtain ⟨-, hpos, hsum⟩ := hwf
  cases hs : h.samples with
  | nil => rfl
  | cons kc rest =>
    exfalso
    have hc : 0 < kc.2 := hpos kc (by simp [hs])
    rw [hs] at hsum
    simp only [List.map_cons, List.sum_cons] at hsum
    omega

/-- C9: on the empty histogram, percentile (for every p), min, max and mean
all return 0 instead of failing; and on every well-formed histogram state,
percentile clamps its target index so that any p at or above 1 returns the
largest recorded sample (max). -/
theorem c9_histogram_edge_cases :
    (∀ p : ℚ, emptyHistogram.percentile p = 0) ∧
      emptyHistogram.min = 0 ∧ emptyHistogram.max = 0 ∧ emptyHistogram.mean = 0 ∧
      (∀ (h : LatencyHistogram) (p : ℚ), h.WF → 1 ≤ p →
        h.percentile p = h.max) := by
  refine ⟨?_, rfl, rfl, rfl, ?_⟩
  · intro p
    simp [LatencyHistogram.percentile, emptyHistogram]
  · intro h p hwf hp
    unfold LatencyHistogram.percentile
    by_cases h0 : h.total_count = 0
    · rw [if_pos h0]
      rw [max_eq_getLast, wf_total_zero_samples_nil h hwf h0]
      rfl
    · rw [if_neg h0]
      have htar : h.total_count ≤ (⌊p * (h.total_count : ℚ)⌋).toNat := by
        have h1 : ((h.total_count : ℚ)) ≤ p * h.total_count := by
          have := mul_le_mul_of_nonneg_right hp (by positivity : (0:ℚ) ≤ h.total_count)
          simpa using this
        have h2 : (h.total_count : Int) ≤ ⌊p * (h.total_count : ℚ)⌋ := by
          rw [Int.le_floor]
          exact_mod_cast h1
        omega
      show percentileLoop h.samples 0
          (if h.total_count ≤ (⌊p * (h.total_count : ℚ)⌋).toNat then
            h.total_count - 1
          else (⌊p * (h.total_count : ℚ)⌋).toNat) h.max = h.max
      rw [if_pos htar]
      obtain ⟨-, hpos, hsum⟩ := hwf
      have hne : h.samples ≠ [] := by
        intro hnil
        rw [hnil] at hsum
        simp at hsum
        omega
      have harith : h.total_count - 1 = 0 + (h.samples.map Prod.snd).sum - 1 := by
        omega
      rw [harith, percentileLoop_hits_last h.samples 0 h.max hne hpos,
        max_eq_getLast]
      cases hs : h.samples.getLast? with
      | none => rfl
      | some kc => rfl

/-- Witness for C9 at a concrete well-formed histogram and p = 1. -/
theorem c9_histogram_edge_cases_witness :
    sampleHistogram.WF ∧ (1 : ℚ) ≤ 1 ∧
      sampleHistogram.percentile 1 = sampleHistogram.max :=
  ⟨⟨by decide, by decide, by decide⟩, le_refl 1,
    c9_histogram_edge_cases.2.2.2.2 sampleHistogram 1
      ⟨by decide, by decide, by decide⟩ (le_refl 1)⟩
theorem addmod (S a : Nat) (h : a < 2 * S) :
    a % S = if a < S then a else a - S := by
  split
  · exact Nat.mod_eq_of_lt (by assumption)
  · have h2 : a - S < S := by omega
    have h3 : a % S = (a - S) % S := by
      conv_lhs => rw [show a = (a - S) + S by omega]
      rw [Nat.add_mod_right]
    rw [h3, Nat.mod_eq_of_lt h2]

theorem absLen_formula (S h t : Nat) (hpos : 0 < S) (hh : h < S) (ht : t < S) :
    (t + S - h) % S = if h ≤ t then t - h else t + S - h := by
  split
  · have e1 : t + S - h = (t - h) + S := by omega
    rw [e1, Nat.add_mod_right, Nat.mod_eq_of_lt (by omega)]
  · exact Nat.mod_eq_of_lt (by omega)

theorem ring_full_iff (S h t : Nat) (hpos : 0 < S) (hh : h < S) (ht : t < S) :
    (t + 1) % S = h ↔ (t + S - h) % S = S - 1 := by
  rw [addmod S (t + 1) (by omega), absLen_formula S h t hpos hh ht]
  split <;> split <;> omega

theorem ring_empty_iff (S h t : Nat) (hpos : 0 < S) (hh : h < S) (ht : t < S) :
    h = t ↔ (t + S - h) % S = 0 := by
  rw [absLen_formula S h t hpos hh ht]
  split <;> omega

theorem ring_index_ne_tail (S h t i : Nat) (hpos : 0 < S) (hh : h < S)
    (ht : t < S) (hi : i < (t + S - h) % S) : (h + i) % S ≠ t := by
  rw [absLen_formula S h t hpos hh ht] at hi
  rw [addmod S (h + i) (by split at hi <;> omega)]
  split at hi <;> split <;> omega

theorem ring_index_at_len (S h t : Nat) (hpos : 0 < S) (hh : h < S) (ht : t < S) :
    (h + (t + S - h) % S) % S = t := by
  rw [absLen_formula S h t hpos hh ht]
  split
  · rw [addmod S _ (by omega)]
    split <;> omega
  · rw [addmod S _ (by omega)]
    split <;> omega

theorem ring_len_push (S h t : Nat) (hpos : 0 < S) (hh : h < S) (ht : t < S)
    (hne : (t + 1) % S ≠ h) :
    ((t + 1) % S + S - h) % S = (t + S - h) % S + 1 := by
  rcases Nat.lt_or_ge (t + 1) S with hlt | hge
  · have e1 : (t + 1) % S = t + 1 := Nat.mod_eq_of_lt hlt
    rw [e1] at hne ⊢
    rw [absLen_formula S h (t + 1) hpos hh hlt, absLen_formula S h t hpos hh ht]
    split <;> split <;> omega
  · have e1 : (t + 1) % S = 0 := by
      rw [show t + 1 = S by omega, Nat.mod_self]
    rw [e1] at hne ⊢
    rw [absLen_formula S h 0 hpos hh hpos, absLen_formula S h t hpos hh ht]
    split <;> split <;> omega

theorem ring_len_pop (S h t : Nat) (hpos : 0 < S) (hh : h < S) (ht : t < S)
    (hne : h ≠ t) :
    (t + S - (h + 1) % S) % S + 1 = (t + S - h) % S := by
  rcases Nat.lt_or_ge (h + 1) S with hlt | hge
  · have e1 : (h + 1) % S = h + 1 := Nat.mod_eq_of_lt hlt
    rw [e1]
    rw [absLen_formula S (h + 1) t hpos hlt ht, absLen_formula S h t hpos hh ht]
    split <;> split <;> omega
  · have e1 : (h + 1) % S = 0 := by
      rw [show h + 1 = S by omega, Nat.mod_self]
    rw [e1]
    rw [absLen_formula S 0 t hpos hpos ht, absLen_formula S h t hpos hh ht]
    split <;> split <;> omega
theorem length_absQueue {T : Type} {S : Nat} (rb : RingBuffer T S) :
    (absQueue rb).length = (rb.tail + S - rb.head) % S := by
  simp [absQueue]

theorem absQueue_push {T : Type} {S : Nat} (hpos : 0 < S) (rb : RingBuffer T S)
    (x : T) (hh : rb.head < S) (ht : rb.tail < S)
    (hne : (rb.tail + 1) % S ≠ rb.head) :
    absQueue (⟨rb.head, (rb.tail + 1) % S,
        fun i => if i = rb.tail then x else rb.buffer i⟩ : RingBuffer T S) =
      absQueue rb ++ [x] := by
  unfold absQueue
  simp only
  rw [ring_len_push S rb.head rb.tail hpos hh ht hne]
  rw [List.range_succ, List.map_append]
  congr 1
  · apply List.map_congr_left
    intro i hi
    rw [List.mem_range] at hi
    have hne2 : (rb.head + i) % S ≠ rb.tail :=
      ring_index_ne_tail S rb.head rb.tail i hpos hh ht hi
    simp [hne2]
  · simp [ring_index_at_len S rb.head rb.tail hpos hh ht]

theorem absQueue_pop {T : Type} {S : Nat} (hpos : 0 < S) (rb : RingBuffer T S)
    (hh : rb.head < S) (ht : rb.tail < S) (hne : rb.head ≠ rb.tail) :
    absQueue rb = rb.buffer rb.head ::
      absQueue (⟨(rb.head + 1) % S, rb.tail, rb.buffer⟩ : RingBuffer T S) := by
  unfold absQueue
  simp only
  rw [← ring_len_pop S rb.head rb.tail hpos hh ht hne]
  rw [List.range_succ_eq_map, List.map_cons, List.map_map]
  congr 1
  · rw [Nat.add_zero, Nat.mod_eq_of_lt hh]
  · apply List.map_congr_left
    intro i hi
    simp only [Function.comp_apply]
    congr 1
    rw [Nat.mod_add_mod]
    congr 1
    omega

theorem try_push_step {T : Type} {S : Nat} (hpos : 0 < S)
    (hmask : ∀ y : Nat, y &&& (S - 1) = y % S) (rb : RingBuffer T S) (x : T)
    (hh : rb.head < S) (ht : rb.tail < S) :
    (rb.try_push x).1 = (queuePush (S - 1) (absQueue rb) x).1 ∧
      absQueue (rb.try_push x).2 = (queuePush (S - 1) (absQueue rb) x).2 ∧
      (rb.try_push x).2.head < S ∧ (rb.try_push x).2.tail < S := by
  unfold RingBuffer.try_push queuePush
  rw [hmask]
  by_cases hfull : (rb.tail + 1) % S = rb.head
  · rw [if_pos hfull]
    rw [if_pos (by
      rw [length_absQueue]
      exact (ring_full_iff S rb.head rb.tail hpos hh ht).mp hfull)]
    exact ⟨rfl, rfl, hh, ht⟩
  · rw [if_neg hfull]
    rw [if_neg (by
      rw [length_absQueue]
      exact fun hc => hfull ((ring_full_iff S rb.head rb.tail hpos hh ht).mpr hc))]
    exact ⟨rfl, absQueue_push hpos rb x hh ht hfull, hh, Nat.mod_lt _ hpos⟩

theorem try_pop_step {T : Type} {S : Nat} (hpos : 0 < S)
    (hmask : ∀ y : Nat, y &&& (S - 1) = y % S) (rb : RingBuffer T S)
    (hh : rb.head < S) (ht : rb.tail < S) :
    (rb.try_pop).1 = (queuePop (absQueue rb)).1 ∧
      absQueue (rb.try_pop).2 = (queuePop (absQueue rb)).2 ∧
      (rb.try_pop).2.head < S ∧ (rb.try_pop).2.tail < S := by
  unfold RingBuffer.try_pop queuePop
  rw [hmask]
  by_cases hempty : rb.head = rb.tail
  · rw [if_pos hempty]
    have habs : absQueue rb = [] := by
      have hlen : (absQueue rb).length = 0 := by
        rw [length_absQueue]
        exact (ring_empty_iff S rb.head rb.tail hpos hh ht).mp hempty
      exact List.length_eq_zero.mp hlen
    rw [habs]
    exact ⟨rfl, rfl, hh, ht⟩
  · rw [if_neg hempty]
    have habs := absQueue_pop hpos rb hh ht hempty
    rw [habs]
    exact ⟨rfl, rfl, Nat.mod_lt _ hpos, ht⟩

theorem runRing_sim {T : Type} {S : Nat} (hpos : 0 < S)
    (hmask : ∀ y : Nat, y &&& (S - 1) = y % S) :
    ∀ (ops : List (RingOp T)) (rb : RingBuffer T S),
      rb.head < S → rb.tail < S →
      (runRing ops rb).1 = (runQueue (S - 1) ops (absQueue rb)).1 ∧
        absQueue (runRing ops rb).2 = (runQueue (S - 1) ops (absQueue rb)).2 := by
  intro ops
  induction ops with
  | nil => intro rb hh ht; exact ⟨rfl, rfl⟩
  | cons op rest ih =>
    intro rb hh ht
    cases op with
    | push x =>
      obtain ⟨h1, h2, hh2, ht2⟩ := try_push_step hpos hmask rb x hh ht
      obtain ⟨ih1, ih2⟩ := ih (rb.try_push x).2 hh2 ht2
      constructor
      · simp only [runRing, runQueue]
        rw [h1, ← h2, ih1]
      · simp only [runRing, runQueue]
        rw [← h2, ih2]
    | pop =>
      obtain ⟨h1, h2, hh2, ht2⟩ := try_pop_step hpos hmask rb hh ht
      obtain ⟨ih1, ih2⟩ := ih (rb.try_pop).2 hh2 ht2
      constructor
      · simp only [runRing, runQueue]
        rw [h1, ← h2, ih1]
      · simp only [runRing, runQueue]
        rw [← h2, ih2]

/-- C1: every sequential interleaving of try_push and try_pop calls on a
freshly-constructed ring of power-of-two capacity S = 2^k is observationally
identical, call by call, to the reference FIFO queue of capacity S - 1 — the
queue that rejects a push exactly when S - 1 items are buffered (leaving its
contents unchanged), rejects a pop exactly when empty, and pops values in push
order — and after the run the buffered contents of the ring are exactly the
reference queue contents, oldest first. -/
theorem c1_ring_fifo_refinement (T : Type) [Inhabited T] (k : Nat)
    (ops : List (RingOp T)) :
    (runRing ops (RingBuffer.new T (2 ^ k))).1 = (runQueue (2 ^ k - 1) ops []).1 ∧
      absQueue (runRing ops (RingBuffer.new T (2 ^ k))).2 =
        (runQueue (2 ^ k - 1) ops []).2 := by
  have hpos : 0 < 2 ^ k := Nat.pos_pow_of_pos k (by norm_num)
  have hmask : ∀ y : Nat, y &&& (2 ^ k - 1) = y % 2 ^ k := fun y =>
    Nat.and_pow_two_sub_one_eq_mod y k
  have habs : absQueue (RingBuffer.new T (2 ^ k)) = [] := by
    simp [absQueue, RingBuffer.new, Nat.mod_self]
  have h := runRing_sim hpos hmask ops (RingBuffer.new T (2 ^ k)) hpos hpos
  rw [habs] at h
  exact h
end TradingLedger
